import Mathlib

/-!
Verification of dissect.cim (a read-only parser for the Windows WMI CIM
repository) against its natural-language specification.

The Python sources under dissect/cim are shallowly embedded below:
pure fragments become Lean functions, byte streams become `List Nat`
(one Nat in [0, 255] per byte), machine integers are `Nat` with explicit
masks where the source masks, and fallible code returns `Except PyExc`.
Definitions follow the corresponding Python functions line by line; the
Python function each definition embeds is named in its doc comment.
-/

set_option maxRecDepth 4000

/-- The exception surface of the Python source: the dissect.cim hierarchy
(`Error`, `InvalidDatabaseError`, `ReferenceNotFoundError`,
`UnmappedPageError` from exceptions.py) together with the Python builtins
the source raises (`ValueError`, `IndexError`) and the `EOFError` that
dissect.cstruct raises on short reads.  `fuelExhausted` is not an
exception of the source: it marks non-termination of an unbounded
`while` loop in the fuel-based embedding of that loop. -/
inductive PyExc where
  | pyError (msg : String)
  | invalidDatabaseError (msg : String)
  | referenceNotFoundError (msg : String)
  | unmappedPageError (n : Nat)
  | valueError (msg : String)
  | indexError
  | eofError
  | fuelExhausted
  deriving DecidableEq, Repr

/-- Equality of fallible results is decidable, so that concrete runs of
the embedded functions can be checked by `decide`. -/
instance {ε α : Type} [DecidableEq ε] [DecidableEq α] :
    DecidableEq (Except ε α) := fun x y =>
  match x, y with
  | .ok a, .ok b =>
    if h : a = b then isTrue (by rw [h])
    else isFalse (fun hc => h (Except.ok.inj hc))
  | .error a, .error b =>
    if h : a = b then isTrue (by rw [h])
    else isFalse (fun hc => h (Except.error.inj hc))
  | .ok _, .error _ => isFalse (fun hc => Except.noConfusion hc)
  | .error _, .ok _ => isFalse (fun hc => Except.noConfusion hc)

/-! ## classes.py: PropertyStates (property-state bit table) -/

/-- `classes.PropertyStates._property_state_length`: the byte length of the
two-bits-per-property state table.  The Python arithmetic
`(8 - required_bits) % 8` runs on signed integers with Python's
floor-mod, so the embedding computes in `Int` (Lean's `%` on `Int` is
`Int.emod`, which agrees with Python's `%` for a positive modulus). -/
def propertyStateLength (num_properties : Nat) : Nat :=
  let required_bits : Int := 2 * num_properties
  let delta_to_nearest_byte : Int := (8 - required_bits) % 8
  let total_bits : Int := required_bits + delta_to_nearest_byte
  (total_bits / 8).toNat

/-- `classes.PropertyStates.__getitem__`: extract the two state bits of
property `idx` from the table bytes `entries` (parsed as
`uint8[_property_state_length()]`, so `entries` lists the table's bytes).
Returns the pair passed to `state_cls`: the first component is
`state_flags & 0b10 > 0` (is_inherited / use_default_value), the second
is `state_flags & 0b01 == 0` (has_default_value / is_initialized).
List indexing out of range is Python's `IndexError`. -/
def propertyStatesGet (entries : List Nat) (num_properties idx : Nat) :
    Except PyExc (Bool × Bool) :=
  if idx > num_properties then .error .indexError
  else
    match entries[idx / 4]? with
    | none => .error .indexError
    | some byte_of_state =>
      let rotations := idx % 4
      let state_flags := (byte_of_state >>> (2 * rotations)) &&& 0x3
      .ok (decide (0 < state_flags &&& 0b10), decide (state_flags &&& 0b01 = 0))

/-! ## c_cim.py: CIM type enumeration -/

/-- `c_cim.CIM_TYPES`: the CIM value type enumeration. -/
inductive CIM_TYPES where
  | INT16 | INT32 | REAL32 | REAL64 | STRING | BOOLEAN | OBJECT
  | INT8 | UINT8 | UINT16 | UINT32 | INT64 | UINT64
  | DATETIME | REFERENCE | CHAR16
  deriving DecidableEq, Repr

/-- `c_cim.ARRAY_STATES`. -/
inductive ARRAY_STATES where
  | NOT_ARRAY | ARRAY
  deriving DecidableEq, Repr

/-- `c_cim.cim_type`: a value type tag together with its array state
(the 16-bit `unk` field of the struct is never read and is omitted). -/
structure CimType where
  type : CIM_TYPES
  array_state : ARRAY_STATES
  deriving DecidableEq, Repr

/-- Byte width of `CIM_TYPES_MAP[t]` (the carrier ctype of a non-array
value of type `t`), used by `DataRegion.get_array` element reads. -/
def ctypeLen : CIM_TYPES → Nat
  | .INT16 => 2
  | .INT32 => 4
  | .REAL32 => 4
  | .REAL64 => 8
  | .STRING => 4
  | .BOOLEAN => 2
  | .OBJECT => 4
  | .INT8 => 1
  | .UINT8 => 1
  | .UINT16 => 2
  | .UINT32 => 4
  | .INT64 => 8
  | .UINT64 => 8
  | .DATETIME => 4
  | .REFERENCE => 4
  | .CHAR16 => 2

/-- The value universe of the embedded Python fragments.  Strings are
kept as their code-unit sequences; array elements and scalar carriers
are kept as the raw little-endian words the source reads (the numeric
reinterpretation that dissect.cstruct applies to signed and floating
types is not needed by any claim). -/
inductive PyVal where
  | int (n : Nat)
  | bool (b : Bool)
  | str (codeUnits : List Nat)
  | list (xs : List Nat)
  deriving DecidableEq, Repr

/-! ## classes.py: DataRegion -/

/-- A parsed `classes.DataRegion`: the `size`-byte payload that follows
the masked 31-bit length word. -/
structure DataRegion where
  data : List Nat
  deriving DecidableEq, Repr

/-- Little-endian word of width `w` bytes read from `bs` at `off`;
`none` when fewer than `w` bytes remain (dissect.cstruct's `EOFError`). -/
def readLE (bs : List Nat) (off w : Nat) : Option Nat :=
  if off + w ≤ bs.length then
    some (((bs.drop off).take w).reverse.foldl (fun acc b => acc * 256 + b) 0)
  else none

/-- `classes.DataRegion.get_string`: the byte at `offset` is an encoding
flag; `0x00` introduces a NUL-terminated Latin-1 string and `0x01` a
NUL-terminated UTF-16-LE string; any other flag raises
`Error("Invalid encoding flag encountered (...)")`.  Latin-1 decoding is
the identity on byte values; UTF-16 code units are kept as code units.
A missing flag byte is Python's `IndexError`; a missing terminator is
the `EOFError` of the underlying null-terminated read. -/
def DataRegion.get_string (r : DataRegion) (offset : Nat) : Except PyExc PyVal :=
  match r.data[offset]? with
  | none => .error .indexError
  | some encoding_flag =>
    if encoding_flag = 0 then
      let rest := r.data.drop (offset + 1)
      let data_str := rest.takeWhile (fun b => b ≠ 0)
      if data_str.length < rest.length then .ok (.str data_str)
      else .error .eofError
    else if encoding_flag = 1 then
      let rest := r.data.drop (offset + 1)
      (go rest []).map (fun units => .str units)
    else .error (.pyError "Invalid encoding flag encountered")
where
  /-- Read NUL-terminated UTF-16-LE code units. -/
  go : List Nat → List Nat → Except PyExc (List Nat)
  | lo :: hi :: rest, acc =>
    let unit := lo + 256 * hi
    if unit = 0 then .ok acc.reverse else go rest (unit :: acc)
  | _, _ => .error .eofError

/-- `classes.DataRegion.get_array`: seek to `offset`, read a `uint32`
element count, then `count` carrier words of the item type. -/
def DataRegion.get_array (r : DataRegion) (offset : Nat) (item_type : CimType) :
    Except PyExc PyVal :=
  match readLE r.data offset 4 with
  | none => .error .eofError
  | some size =>
    (go size (offset + 4)).map .list
where
  go : Nat → Nat → Except PyExc (List Nat)
  | 0, _ => .ok []
  | n + 1, pos =>
    match readLE r.data pos (ctypeLen item_type.type) with
    | none => .error .eofError
    | some w => (go n (pos + ctypeLen item_type.type)).map (w :: ·)

/-- `classes.DataRegion.get_value`: dispatch on the value type.  Arrays
defer to `get_array` with the carrier as a data-region offset;
STRING / REFERENCE / DATETIME defer to `get_string`; the eight integer
types return the carrier unchanged; BOOLEAN compares the raw carrier
with `BOOLEAN_STATES.TRUE = 0xFFFF`; every other type raises
`ValueError("Unknown value type")`. -/
def DataRegion.get_value (r : DataRegion) (value : Nat) (value_type : CimType) :
    Except PyExc PyVal :=
  if value_type.array_state = .ARRAY then r.get_array value value_type
  else
    let t := value_type.type
    if t = .STRING ∨ t = .REFERENCE ∨ t = .DATETIME then r.get_string value
    else if t = .INT8 ∨ t = .UINT8 ∨ t = .INT16 ∨ t = .UINT16 ∨
            t = .INT32 ∨ t = .UINT32 ∨ t = .INT64 ∨ t = .UINT64 then .ok (.int value)
    else if t = .BOOLEAN then .ok (.bool (value = 0xFFFF))
    else .error (.valueError "Unknown value type")

/-! ## mappings.py: Mapping and MappingEntry -/

/-- `c_cim.MAPPING_PAGE_ID_MASK`. -/
def MAPPING_PAGE_ID_MASK : Nat := 0x3FFFFFFF

/-- `c_cim.UNMAPPED_PAGE_VALUE`. -/
def UNMAPPED_PAGE_VALUE : Nat := 0x3FFFFFFF

/-- A raw element of `mapping.entries`: a full `c_cim.mapping_entry`
record in the modern layout, a bare `uint32` page number in the XP
layout (`mapping_xp.entries`). -/
inductive RawMappingEntry where
  | modern (page_number page_crc free_space used_space first_id second_id : Nat)
  | xp (page_number : Nat)
  deriving DecidableEq, Repr

/-- `mappings.MappingEntry`: the constructor masks the raw page number
with `MAPPING_PAGE_ID_MASK`; the metadata fields are `None` for a bare
XP entry. -/
structure MappingEntry where
  page_number : Nat
  page_crc : Option Nat
  free_space : Option Nat
  used_space : Option Nat
  first_id : Option Nat
  second_id : Option Nat
  deriving DecidableEq, Repr

/-- `mappings.MappingEntry.__init__`. -/
def MappingEntry.ofRaw : RawMappingEntry → MappingEntry
  | .modern page_number page_crc free_space used_space first_id second_id =>
    ⟨page_number &&& MAPPING_PAGE_ID_MASK,
     some page_crc, some free_space, some used_space, some first_id, some second_id⟩
  | .xp page_number =>
    ⟨page_number &&& MAPPING_PAGE_ID_MASK, none, none, none, none, none⟩

/-- `mappings.MappingEntry.is_mapped`. -/
def MappingEntry.is_mapped (e : MappingEntry) : Bool :=
  e.page_number ≠ UNMAPPED_PAGE_VALUE

/-- The parsed `c_cim.mapping` / `c_cim.mapping_xp` record held by
`mappings.Mapping` (only the fields `Mapping.get_entry` reads); the
cstruct layout guarantees `entries.length = mapping_entry_count`. -/
structure MappingRecord where
  mapping_entry_count : Nat
  entries : List RawMappingEntry
  deriving Repr

/-- `mappings.Mapping.get_entry`: a bounds pre-check against
`mapping_entry_count` raises `IndexError`; a failing list index (the
`try`/`except` around `self.mapping.entries[logical_num]`) raises
`UnmappedPageError`; otherwise the entry is wrapped in `MappingEntry`
and returned — the code never consults `is_mapped`. -/
def Mapping.get_entry (m : MappingRecord) (logical_num : Nat) :
    Except PyExc MappingEntry :=
  if logical_num > m.mapping_entry_count then .error .indexError
  else
    match m.entries[logical_num]? with
    | none => .error (.unmappedPageError logical_num)
    | some entry => .ok (MappingEntry.ofRaw entry)

/-! ## index.py: Key.reference -/

/-- `index.Key.reference`, as a function of the match list produced by
`self.references()` (= `cim.index.lookup(self)`): `None` on no match,
the unique match, and `ValueError("Key returned more than one
reference")` on two or more matches. -/
def Key.reference {α : Type} (refs : List α) : Except PyExc (Option α) :=
  if refs.length ≠ 0 ∧ refs.length > 1 then
    .error (.valueError "Key returned more than one reference")
  else .ok refs.head?

/-! ## Python string and integer helpers used by index.py Key -/

/-- Python `str.split(sep)` for a one-character separator: splitting the
empty string gives `[""]`, and every separator occurrence produces a
boundary. -/
def pySplit (sep : Char) : List Char → List (List Char)
  | [] => [[]]
  | c :: rest =>
    if c = sep then [] :: pySplit sep rest
    else
      match pySplit sep rest with
      | [] => [[c]]
      | g :: gs => (c :: g) :: gs

/-- Python `int(s)` restricted to the plain non-empty decimal-digit
strings the data-reference tails consist of; anything else raises
`ValueError` (sign markers and whitespace tolerance of the Python
builtin are not needed by any claim).  Character classes here and below
are stated on `Char.toNat` code points. -/
def pyInt (s : List Char) : Except PyExc Nat :=
  if s ≠ [] ∧ s.all (fun c => 48 ≤ c.toNat ∧ c.toNat ≤ 57) then
    .ok (s.foldl (fun acc c => 10 * acc + (c.toNat - 48)) 0)
  else .error (.valueError "invalid literal for int")

/-- Python `str(n)` for a natural number: its decimal digit string. -/
def pyStr (n : Nat) : List Char :=
  if n = 0 then ['0']
  else (Nat.digits 10 n).reverse.map (fun d => Char.ofNat (48 + d))

/-! ## index.py: Key data-reference accessors -/

/-- `index.Key.is_data_reference`: `"." in self.key`. -/
def Key.is_data_reference (key : List Char) : Bool :=
  key.contains '.'

/-- `index.Key._data_part`: `self.key.split(".")[idx]`, guarded by
`is_data_reference` (`ValueError` otherwise); an out-of-range index is
Python's `IndexError`. -/
def Key.data_part (key : List Char) (idx : Nat) : Except PyExc (List Char) :=
  if ¬ Key.is_data_reference key then
    .error (.valueError "Key is not a data reference")
  else
    match (pySplit '.' key)[idx]? with
    | none => .error .indexError
    | some p => .ok p

/-- `index.Key.data_page`: `int(self._data_part(1))`. -/
def Key.data_page (key : List Char) : Except PyExc Nat :=
  Key.data_part key 1 >>= pyInt

/-- `index.Key.data_id`: `int(self._data_part(2))`. -/
def Key.data_id (key : List Char) : Except PyExc Nat :=
  Key.data_part key 2 >>= pyInt

/-- `index.Key.data_length`: `int(self._data_part(3))`. -/
def Key.data_length (key : List Char) : Except PyExc Nat :=
  Key.data_part key 3 >>= pyInt

/-! ## objects.py: TOC, DataPage, Store, Objects -/

/-- `c_cim.DATA_PAGE_SIZE` (= `INDEX_PAGE_SIZE`). -/
def DATA_PAGE_SIZE : Nat := 0x2000

/-- `c_cim.toc_entry`. -/
structure TocEntry where
  record_id : Nat
  offset : Nat
  size : Nat
  crc : Nat
  deriving DecidableEq, Repr

/-- Little-endian `uint32` from four bytes. -/
def le4 (a b c d : Nat) : Nat := a + 256 * (b + 256 * (c + 256 * d))

/-- `objects.TOC.__init__`: read 16-byte `toc_entry` records from the
start of the page until the all-zero terminator entry; running out of
bytes before the terminator is dissect.cstruct's `EOFError`. -/
def tocParse : List Nat → Except PyExc (List TocEntry)
  | b0 :: b1 :: b2 :: b3 :: b4 :: b5 :: b6 :: b7 ::
    b8 :: b9 :: b10 :: b11 :: b12 :: b13 :: b14 :: b15 :: rest =>
    let e : TocEntry :=
      ⟨le4 b0 b1 b2 b3, le4 b4 b5 b6 b7, le4 b8 b9 b10 b11, le4 b12 b13 b14 b15⟩
    if e.record_id = 0 ∧ e.offset = 0 ∧ e.size = 0 ∧ e.crc = 0 then .ok []
    else (tocParse rest).map (e :: ·)
  | _ => .error .eofError

/-- `objects.DataPage.data`: scan the TOC entries in order for
`record_id == key.data_id`; fail fast with
`Error("Entry size is smaller than target size: ...")` when
`entry.size < key.data_length`; otherwise seek to `entry.offset` inside
the page and read `entry.size` bytes (a read at the end of the page
`BytesIO` returns only the bytes that exist, which is what makes the
multi-page splicing in `Objects.get` reachable).  No matching entry is
Python's bare `raise IndexError`.  The source's
`if entry.size > DATA_PAGE_SIZE - entry.offset: pass` branch has no
effect and is omitted. -/
def DataPage.data (page_bytes : List Nat) (toc : List TocEntry)
    (target_id target_size : Nat) : Except PyExc (List Nat) :=
  match toc with
  | [] => .error .indexError
  | entry :: rest =>
    if entry.record_id = target_id then
      if entry.size < target_size then
        .error (.pyError "Entry size is smaller than target size")
      else .ok ((page_bytes.drop entry.offset).take entry.size)
    else DataPage.data page_bytes rest target_id target_size

/-- `objects.Store`: the OBJECTS.DATA byte stream together with the
mapping used to translate logical page numbers. -/
structure ObjStore where
  fh : List Nat
  map : MappingRecord

/-- `objects.Store.physical_page`: seek to `DATA_PAGE_SIZE * page_number`
and read `DATA_PAGE_SIZE` bytes (fewer remain near the end of file). -/
def ObjStore.physical_page (s : ObjStore) (page_number : Nat) : List Nat :=
  (s.fh.drop (DATA_PAGE_SIZE * page_number)).take DATA_PAGE_SIZE

/-- `objects.Store.logical_page` (also the page-byte part of
`Store.page`): translate through `Mapping.get_entry` and read the
physical page. -/
def ObjStore.logical_page (s : ObjStore) (logical_num : Nat) :
    Except PyExc (List Nat) :=
  (Mapping.get_entry s.map logical_num).map
    (fun e => s.physical_page e.page_number)

/-- The `while cur_len < data_len` loop of `objects.Objects.get`,
with `read_list` kept as the already-concatenated prefix.  The loop is
unbounded in the source (an empty read makes no progress), so the
embedding carries fuel; `fuelExhausted` marks the non-terminating runs. -/
def Objects.getLoop (s : ObjStore) (data_len : Nat) :
    Nat → Nat → List Nat → Nat → Except PyExc (List Nat)
  | cur_page, cur_len, read_list, fuel =>
    if cur_len < data_len then
      match fuel with
      | 0 => .error .fuelExhausted
      | fuel + 1 =>
        match s.logical_page cur_page with
        | .error e => .error e
        | .ok next_buf =>
          if cur_len + next_buf.length > data_len then
            let chunk_size := data_len - cur_len
            Objects.getLoop s data_len (cur_page + 1) (cur_len + chunk_size)
              (read_list ++ next_buf.take chunk_size) fuel
          else
            Objects.getLoop s data_len (cur_page + 1) (cur_len + next_buf.length)
              (read_list ++ next_buf) fuel
    else .ok read_list

/-- `objects.Objects.get` for the data reference
`(data_page, data_id, data_length)`: read the TOC-bearing page, take the
slice `DataPage.data` finds there, return it as-is when its length
already equals `data_length`, and otherwise extend it with successor
logical pages through the `while` loop. -/
def Objects.get (s : ObjStore) (data_page data_id data_length : Nat)
    (fuel : Nat) : Except PyExc (List Nat) :=
  match s.logical_page data_page with
  | .error e => .error e
  | .ok page_bytes =>
    match tocParse page_bytes with
    | .error e => .error e
    | .ok toc =>
      match DataPage.data page_bytes toc data_id data_length with
      | .error e => .error e
      | .ok buf =>
        if buf.length = data_length then .ok buf
        else Objects.getLoop s data_length (data_page + 1) buf.length buf fuel

/-! ## index.py: Index lookup -/

/-- `c_cim.INDEX_PAGE_INVALID`. -/
def INDEX_PAGE_INVALID : Nat := 0xFFFFFFFF

/-- `c_cim.INDEX_PAGE_INVALID2`. -/
def INDEX_PAGE_INVALID2 : Nat := 0x00000000

/-- An `index.IndexPage` as the lookup reads it: the reconstructed key
strings `key(0) .. key(count-1)` and the `record_count + 1` child
pointers.  (`page.count` is `keys.length`.) -/
structure IndexPageM where
  keys : List String
  children : List Nat
  deriving Repr

/-- `index.Store.page` as a resolution function: logical page number to
parsed page.  Page-read failures abort a whole lookup in the source and
are outside the traversal the claim describes, so resolution is total
here. -/
structure IndexStoreM where
  pages : Nat → IndexPageM

/-- The `for i, page_key in enumerate(page.keys())` loop body of
`index.Index._lookup`, recursing over the key list with its position
`i`; `child j` is `Index._lookup_child` on child slot `j` of the current
page (`j = i` for `_lookup_left`, `j = i + 1` for `_lookup_right`), and
`count` is `page.count`.  `none` propagates an exhausted recursion
budget. -/
def Index.scanKeys (child : Nat → Option (List String)) (key : String)
    (count : Nat) : Nat → List String → Option (List String)
  | _, [] => some []
  | i, page_key_str :: rest =>
    if key.toList <:+: page_key_str.toList then
      match child i, child (i + 1) with
      | some left, some right =>
        if i = count - 1 then some (left ++ page_key_str :: right)
        else
          (Index.scanKeys child key count (i + 1) rest).map
            (fun ms => left ++ page_key_str :: (right ++ ms))
      | _, _ => none
    else if key < page_key_str then child i
    else if i = count - 1 then child (i + 1)
    else Index.scanKeys child key count (i + 1) rest

/-- `index.Index._lookup` (with `_lookup_child` inlined as the `child`
argument of the scan): children equal to `INDEX_PAGE_INVALID` or
`INDEX_PAGE_INVALID2` contribute no matches and are not recursed into;
any other child pointer is resolved through the store and searched.
The source recursion is unbounded on (corrupt) cyclic page graphs, so
the embedding carries fuel and returns `none` when it runs out. -/
def Index.lookupAux (s : IndexStoreM) (key : String) :
    Nat → IndexPageM → Option (List String)
  | 0, _ => none
  | fuel + 1, page =>
    Index.scanKeys
      (fun j =>
        let child_idx := page.children.getD j 0
        if child_idx = INDEX_PAGE_INVALID ∨ child_idx = INDEX_PAGE_INVALID2 then
          some []
        else Index.lookupAux s key fuel (s.pages child_idx))
      key page.keys.length 0 page.keys

mutual

/-- Modelled from the spec's words (§4.3 algorithm `lookup(target)`,
claim C6), deliberately written with positional indexing instead of list
recursion so that `C6` below relates two independently structured
definitions: scan the page's keys left to right from position `i`. -/
def Index.specScan (s : IndexStoreM) (target : String) (fuel : Nat)
    (page : IndexPageM) (i : Nat) : Option (List String) :=
  if hi : page.keys.length ≤ i then some []
  else
    let k := page.keys.get ⟨i, by omega⟩
    if target.toList <:+: k.toList then
      -- substring: recurse into child i, emit k, recurse into child i+1;
      -- continue scanning unless i is the last key.
      match Index.specChild s target fuel page i,
            Index.specChild s target fuel page (i + 1) with
      | some left, some right =>
        if i = page.keys.length - 1 then some (left ++ [k] ++ right)
        else
          match Index.specScan s target fuel page (i + 1) with
          | some ms => some (left ++ [k] ++ right ++ ms)
          | none => none
      | _, _ => none
    else if target < k then
      -- target lexicographically less: recurse into child i and stop.
      Index.specChild s target fuel page i
    else if i = page.keys.length - 1 then
      -- target greater than the last key: recurse into the rightmost child.
      Index.specChild s target fuel page (i + 1)
    else Index.specScan s target fuel page (i + 1)
termination_by (fuel, 2, page.keys.length - i)

/-- Modelled from the spec's words: children equal to `0xFFFFFFFF` or
`0x00000000` are sentinels and are never recursed into. -/
def Index.specChild (s : IndexStoreM) (target : String) (fuel : Nat)
    (page : IndexPageM) (j : Nat) : Option (List String) :=
  let child_idx := page.children.getD j 0
  if child_idx = 0xFFFFFFFF ∨ child_idx = 0x00000000 then some []
  else Index.specLookup s target fuel (s.pages child_idx)
termination_by (fuel, 1, 0)

/-- Modelled from the spec's words: one page visit of the traversal. -/
def Index.specLookup (s : IndexStoreM) (target : String) (fuel : Nat)
    (page : IndexPageM) : Option (List String) :=
  match fuel with
  | 0 => none
  | fuel + 1 => Index.specScan s target fuel page 0
termination_by (fuel, 0, 0)

end

/-! ## cim.py: Property.default_value -/

/-- One class layout of a derivation chain, as `Property.default_value`
reads it: `num_properties` and `state_entries` give the
`property_default_values.state` table (`PropertyStates` over the
class's `default_values_data`), `default_values` the per-slot carriers
(`PropertyDefaultValues.default_values`, indexed by the property slot
index as the source does), and `property_data` the class definition's
property data region. -/
structure AncestorLayout where
  num_properties : Nat
  state_entries : List Nat
  default_values : List Nat
  property_data : DataRegion
  deriving DecidableEq, Repr

/-- The `for ancestor_cl in rderivation` loop of
`cim.Property.default_value`: `rderivation` is the derivation reversed,
so the walk visits the leaf first and moves up toward the root.  An
ancestor whose state lacks `has_default_value` raises
`Error("Property with inherited default value has bad ancestor ...")`;
an ancestor with `is_inherited` is skipped; the first remaining one
supplies the value via its own `property_data.get_value`.  Exhausting
the list raises `Error("Unable to find ancestor class with default
value")`. -/
def Property.default_value_walk (idx : Nat) (ty : CimType) :
    List AncestorLayout → Except PyExc PyVal
  | [] => .error (.pyError "Unable to find ancestor class with default value")
  | ancestor_cl :: rest =>
    match propertyStatesGet ancestor_cl.state_entries ancestor_cl.num_properties idx with
    | .error e => .error e
    | .ok (is_inherited, has_default_value) =>
      if ¬ has_default_value then
        .error (.pyError "Property with inherited default value has bad ancestor (no default value)")
      else if is_inherited then Property.default_value_walk idx ty rest
      else
        match ancestor_cl.default_values[idx]? with
        | none => .error .indexError
        | some v => ancestor_cl.property_data.get_value v ty

/-- `cim.Property.default_value` for the property at slot `idx` of the
class whose `Class.derivation` (root first, leaf = the class itself
last) is `derivation`: no default state raises
`ValueError("Property has no default value!")`; a non-inherited default
is read from the class's own layout; an inherited one is searched for
through `rderivation = derivation[:]; rderivation.reverse()`. -/
def Property.default_value (derivation : List AncestorLayout) (idx : Nat)
    (ty : CimType) : Except PyExc PyVal :=
  match derivation.getLast? with
  | none => .error .indexError
  | some cl =>
    match propertyStatesGet cl.state_entries cl.num_properties idx with
    | .error e => .error e
    | .ok (is_inherited, has_default_value) =>
      if ¬ has_default_value then
        .error (.valueError "Property has no default value!")
      else if ¬ is_inherited then
        match cl.default_values[idx]? with
        | none => .error .indexError
        | some v => cl.property_data.get_value v ty
      else Property.default_value_walk idx ty derivation.reverse

/-- Modelled from the spec's words (claim C3): "walk ancestors from root
toward leaf; pick the first one whose state for `p` has
`has_default_value && !is_inherited`, reading from that ancestor's
`property_data`" — kept only to compare with the source's walk, which
runs in the opposite direction. -/
def specRootToLeafDefault (idx : Nat) (ty : CimType) :
    List AncestorLayout → Except PyExc PyVal
  | [] => .error (.pyError "no ancestor with a default value")
  | ancestor_cl :: rest =>
    match propertyStatesGet ancestor_cl.state_entries ancestor_cl.num_properties idx with
    | .error e => .error e
    | .ok (is_inherited, has_default_value) =>
      if has_default_value ∧ ¬ is_inherited then
        match ancestor_cl.default_values[idx]? with
        | none => .error .indexError
        | some v => ancestor_cl.property_data.get_value v ty
      else specRootToLeafDefault idx ty rest

/-! ## cim.py: enumerator deduplication -/

/-- A member of the `yielded` set in `cim.Namespace.namespaces`: the set
receives `Namespace` objects (compared by object identity, `id` below)
while the membership test probes it with name strings — the two never
compare equal. -/
inductive PyObj where
  | str (s : String)
  | namespaceObj (id : Nat)
  deriving DecidableEq, Repr

/-- The reference loop of `cim.Namespace.namespaces` over the
`__namespace` instances resolved from the index (given here by their
`Name` property values): build `f"{self.name}\\{name}"`, test
`ns.name not in yielded`, and on success yield and run
`yielded.add(ns)` — adding the `Namespace` object itself, not its name.
(The extra `yield self.cim.system` for the root namespace follows the
loop in the source and takes no part in the deduplication.) -/
def Namespace.namespaces_yield (self_name : String) (inst_names : List String) :
    List String :=
  go [] 0 inst_names
where
  go (yielded : List PyObj) (k : Nat) : List String → List String
  | [] => []
  | name :: rest =>
    let ns_name := self_name ++ "\\" ++ name
    if yielded.contains (.str ns_name) then go yielded (k + 1) rest
    else ns_name :: go (.namespaceObj k :: yielded) (k + 1) rest

/-- The shared deduplication shape of `cim.Namespace.classes` (over
class names, system classes first) and `cim.Class.instances` (over
`str(instance.key)`): yield each item whose tag is not yet in
`yielded`, then add the tag itself to the set. -/
def dedupFirstOccurrence (tags : List String) : List String :=
  go [] tags
where
  go (yielded : List String) : List String → List String
  | [] => []
  | tag :: rest =>
    if yielded.contains tag then go yielded rest
    else tag :: go (tag :: yielded) rest

/-! ## hashlib: SHA-256 and MD5

`index.Key._hash` calls `hashlib.sha256` (modern repositories) or
`hashlib.md5` (XP repositories).  Both algorithms are embedded below as
the standard FIPS 180-4 / RFC 1321 functions over byte lists, with
32-bit words as `Nat` reduced by `w32`. -/

/-- Truncation to a 32-bit word. -/
def w32 (x : Nat) : Nat := x % 4294967296

/-- Split a (padded) message into 64-byte blocks.  The fuel argument of
the worker is only a structural-recursion bound: each step consumes at
least one byte, so `l.length` steps always suffice. -/
def blocks64Aux : Nat → List Nat → List (List Nat)
  | 0, _ => []
  | _, [] => []
  | fuel + 1, x :: rest => ((x :: rest).take 64) :: blocks64Aux fuel ((x :: rest).drop 64)

/-- Split a (padded) message into 64-byte blocks. -/
def blocks64 (l : List Nat) : List (List Nat) := blocks64Aux l.length l

namespace SHA256

/-- Right rotation of a 32-bit word. -/
def rotr (n x : Nat) : Nat := w32 ((x >>> n) ||| (x <<< (32 - n)))

def bsig0 (x : Nat) : Nat := rotr 2 x ^^^ rotr 13 x ^^^ rotr 22 x
def bsig1 (x : Nat) : Nat := rotr 6 x ^^^ rotr 11 x ^^^ rotr 25 x
def ssig0 (x : Nat) : Nat := rotr 7 x ^^^ rotr 18 x ^^^ (x >>> 3)
def ssig1 (x : Nat) : Nat := rotr 17 x ^^^ rotr 19 x ^^^ (x >>> 10)

/-- The 64 round constants. -/
def K : List Nat :=
  [0x428A2F98, 0x71374491, 0xB5C0FBCF, 0xE9B5DBA5,
   0x3956C25B, 0x59F111F1, 0x923F82A4, 0xAB1C5ED5,
   0xD807AA98, 0x12835B01, 0x243185BE, 0x550C7DC3,
   0x72BE5D74, 0x80DEB1FE, 0x9BDC06A7, 0xC19BF174,
   0xE49B69C1, 0xEFBE4786, 0x0FC19DC6, 0x240CA1CC,
   0x2DE92C6F, 0x4A7484AA, 0x5CB0A9DC, 0x76F988DA,
   0x983E5152, 0xA831C66D, 0xB00327C8, 0xBF597FC7,
   0xC6E00BF3, 0xD5A79147, 0x06CA6351, 0x14292967,
   0x27B70A85, 0x2E1B2138, 0x4D2C6DFC, 0x53380D13,
   0x650A7354, 0x766A0ABB, 0x81C2C92E, 0x92722C85,
   0xA2BFE8A1, 0xA81A664B, 0xC24B8B70, 0xC76C51A3,
   0xD192E819, 0xD6990624, 0xF40E3585, 0x106AA070,
   0x19A4C116, 0x1E376C08, 0x2748774C, 0x34B0BCB5,
   0x391C0CB3, 0x4ED8AA4A, 0x5B9CCA4F, 0x682E6FF3,
   0x748F82EE, 0x78A5636F, 0x84C87814, 0x8CC70208,
   0x90BEFFFA, 0xA4506CEB, 0xBEF9A3F7, 0xC67178F2]

/-- Initial hash value. -/
def initH : List Nat :=
  [0x6A09E667,
   0xBB67AE85,
   0x3C6EF372,
   0xA54FF53A,
   0x510E527F,
   0x9B05688C,
   0x1F83D9AB,
   0x5BE0CD19]

/-- Big-endian encoding of `x` in `w` bytes. -/
def be (w x : Nat) : List Nat :=
  (List.range w).reverse.map (fun i => (x >>> (8 * i)) % 256)

/-- Merkle–Damgård padding: append `0x80`, zeros to 56 mod 64, and the
bit length as a big-endian 64-bit integer. -/
def pad (msg : List Nat) : List Nat :=
  let padlen := (64 - (msg.length + 9) % 64) % 64
  msg ++ 0x80 :: (List.replicate padlen 0 ++ be 8 (8 * msg.length))

/-- Big-endian 32-bit words of a block. -/
def toWords : List Nat → List Nat
  | a :: b :: c :: d :: rest => (((a * 256 + b) * 256 + c) * 256 + d) :: toWords rest
  | _ => []

/-- Extend the 16 block words to the 64-entry message schedule. -/
def msgSchedule (ws : List Nat) : List Nat :=
  (List.range 48).foldl
    (fun w _ =>
      let t := w.length
      w ++ [w32 (ssig1 (w.getD (t - 2) 0) + w.getD (t - 7) 0 +
                 ssig0 (w.getD (t - 15) 0) + w.getD (t - 16) 0)])
    ws

/-- One compression round on the state `[a,b,c,d,e,f,g,h]`. -/
def round (state : List Nat) (kw : Nat × Nat) : List Nat :=
  match state with
  | [a, b, c, d, e, f, g, h] =>
    let ch := (e &&& f) ^^^ ((e ^^^ 0xFFFFFFFF) &&& g)
    let maj := (a &&& b) ^^^ (a &&& c) ^^^ (b &&& c)
    let t1 := w32 (h + bsig1 e + ch + kw.1 + kw.2)
    let t2 := w32 (bsig0 a + maj)
    [w32 (t1 + t2), a, b, c, w32 (d + t1), e, f, g]
  | st => st

/-- Process one 64-byte block. -/
def processBlock (h : List Nat) (block : List Nat) : List Nat :=
  let ws := msgSchedule (toWords block)
  let final := (K.zip ws).foldl round h
  (h.zip final).map (fun p => w32 (p.1 + p.2))

/-- SHA-256 digest (32 bytes) of a byte list. -/
def sha256 (msg : List Nat) : List Nat :=
  ((blocks64 (pad msg)).foldl processBlock initH).map (be 4) |>.flatten

end SHA256

namespace MD5

/-- Left rotation of a 32-bit word. -/
def rotl (n x : Nat) : Nat := w32 ((x <<< n) ||| (x >>> (32 - n)))

/-- Per-round left-rotation amounts. -/
def s : List Nat :=
  [7, 12, 17, 22, 7, 12, 17, 22, 7, 12, 17, 22, 7, 12, 17, 22,
   5, 9, 14, 20, 5, 9, 14, 20, 5, 9, 14, 20, 5, 9, 14, 20,
   4, 11, 16, 23, 4, 11, 16, 23, 4, 11, 16, 23, 4, 11, 16, 23,
   6, 10, 15, 21, 6, 10, 15, 21, 6, 10, 15, 21, 6, 10, 15, 21]

/-- The 64 sine-derived constants `floor(2^32 * abs(sin(i + 1)))`. -/
def K : List Nat :=
  [0xd76aa478, 0xe8c7b756, 0x242070db, 0xc1bdceee, 0xf57c0faf, 0x4787c62a,
   0xa8304613, 0xfd469501, 0x698098d8, 0x8b44f7af, 0xffff5bb1, 0x895cd7be,
   0x6b901122, 0xfd987193, 0xa679438e, 0x49b40821, 0xf61e2562, 0xc040b340,
   0x265e5a51, 0xe9b6c7aa, 0xd62f105d, 0x02441453, 0xd8a1e681, 0xe7d3fbc8,
   0x21e1cde6, 0xc33707d6, 0xf4d50d87, 0x455a14ed, 0xa9e3e905, 0xfcefa3f8,
   0x676f02d9, 0x8d2a4c8a, 0xfffa3942, 0x8771f681, 0x6d9d6122, 0xfde5380c,
   0xa4beea44, 0x4bdecfa9, 0xf6bb4b60, 0xbebfbc70, 0x289b7ec6, 0xeaa127fa,
   0xd4ef3085, 0x04881d05, 0xd9d4d039, 0xe6db99e5, 0x1fa27cf8, 0xc4ac5665,
   0xf4292244, 0x432aff97, 0xab9423a7, 0xfc93a039, 0x655b59c3, 0x8f0ccc92,
   0xffeff47d, 0x85845dd1, 0x6fa87e4f, 0xfe2ce6e0, 0xa3014314, 0x4e0811a1,
   0xf7537e82, 0xbd3af235, 0x2ad7d2bb, 0xeb86d391]

/-- Little-endian encoding of `x` in `w` bytes. -/
def le (w x : Nat) : List Nat :=
  (List.range w).map (fun i => (x >>> (8 * i)) % 256)

/-- Little-endian 32-bit words of a block. -/
def toWordsLE : List Nat → List Nat
  | a :: b :: c :: d :: rest => (((d * 256 + c) * 256 + b) * 256 + a) :: toWordsLE rest
  | _ => []

/-- Initial state `[a0, b0, c0, d0]`. -/
def initH : List Nat := [0x67452301, 0xefcdab89, 0x98badcfe, 0x10325476]

/-- Padding: like SHA-256 but with the bit length little-endian,
reduced modulo 2^64. -/
def pad (msg : List Nat) : List Nat :=
  let padlen := (64 - (msg.length + 9) % 64) % 64
  msg ++ 0x80 :: (List.replicate padlen 0 ++ le 8 ((8 * msg.length) % 2 ^ 64))

/-- One round (index `i`) on the state `[A,B,C,D]` with block words `M`. -/
def round (M : List Nat) (state : List Nat) (i : Nat) : List Nat :=
  match state with
  | [A, B, C, D] =>
    let notB := B ^^^ 0xFFFFFFFF
    let notD := D ^^^ 0xFFFFFFFF
    let fg : Nat × Nat :=
      if i < 16 then ((B &&& C) ||| (notB &&& D), i)
      else if i < 32 then ((D &&& B) ||| (notD &&& C), (5 * i + 1) % 16)
      else if i < 48 then (B ^^^ C ^^^ D, (3 * i + 5) % 16)
      else (C ^^^ (B ||| notD), (7 * i) % 16)
    let F := w32 (fg.1 + A + K.getD i 0 + M.getD fg.2 0)
    [D, w32 (B + rotl (s.getD i 0) F), B, C]
  | st => st

/-- Process one 64-byte block. -/
def processBlock (h : List Nat) (block : List Nat) : List Nat :=
  let M := toWordsLE block
  let final := (List.range 64).foldl (round M) h
  (h.zip final).map (fun p => w32 (p.1 + p.2))

/-- MD5 digest (16 bytes) of a byte list. -/
def md5 (msg : List Nat) : List Nat :=
  ((blocks64 (pad msg)).foldl processBlock initH).map (le 4) |>.flatten

end MD5

/-! ## index.py: Key construction and hashing

Names are `List Char`.  The Python string predicates (`str.isupper`,
`str.upper`, membership in `string.hexdigits`) are embedded for their
ASCII fragment, which is the alphabet CIM names and hex digests use. -/

/-- The ASCII fragment of Python's notion of a cased character
(`a`-`z` is 97-122, `A`-`Z` is 65-90). -/
def pyIsCased (c : Char) : Bool :=
  (97 ≤ c.toNat ∧ c.toNat ≤ 122) ∨ (65 ≤ c.toNat ∧ c.toNat ≤ 90)

/-- The ASCII fragment of Python `str.upper` on one character. -/
def pyUpperChar (c : Char) : Char :=
  if 97 ≤ c.toNat ∧ c.toNat ≤ 122 then Char.ofNat (c.toNat - 32) else c

/-- Python `str.upper`. -/
def pyUpper (name : List Char) : List Char := name.map pyUpperChar

/-- Python `str.isupper`: at least one cased character and no lowercase
cased character. -/
def pyIsUpper (name : List Char) : Bool :=
  name.any pyIsCased && name.all (fun c => ¬ (97 ≤ c.toNat ∧ c.toNat ≤ 122))

/-- Membership in Python's `string.hexdigits` (`0-9a-fA-F`:
48-57, 97-102, 65-70). -/
def isHexDigit (c : Char) : Bool :=
  (48 ≤ c.toNat ∧ c.toNat ≤ 57) ∨ (97 ≤ c.toNat ∧ c.toNat ≤ 102) ∨
  (65 ≤ c.toNat ∧ c.toNat ≤ 70)

/-- UTF-16-LE encoding of a name (`name.encode("utf-16-le")`),
surrogate pairs for code points beyond the BMP. -/
def utf16le (name : List Char) : List Nat :=
  name.foldr (fun c acc => encodeChar c ++ acc) []
where
  encodeChar (c : Char) : List Nat :=
    let n := c.toNat
    if n < 0x10000 then [n % 256, n / 256]
    else
      let m := n - 0x10000
      let hi := 0xD800 + m / 0x400
      let lo := 0xDC00 + m % 0x400
      [hi % 256, hi / 256, lo % 256, lo / 256]

/-- One lowercase hex character of `hexdigest()` (`0` is code point 48,
`a` is 97, so nibble `n` maps to 48 + n below 10 and 87 + n above). -/
def hexChar (n : Nat) : Char :=
  if n < 10 then Char.ofNat (48 + n) else Char.ofNat (87 + n)

/-- `hashlib`'s `hexdigest()`: two lowercase hex characters per byte. -/
def hexEncode (bytes : List Nat) : List Char :=
  bytes.foldr (fun b acc => hexChar (b / 16) :: hexChar (b % 16) :: acc) []

/-- `index.Key._hash`: MD5 when the session is XP, SHA-256 otherwise;
the result is `hexdigest().upper()`. -/
def Key.hashDigest (type_xp : Bool) (s : List Nat) : List Char :=
  pyUpper (hexEncode (if type_xp then MD5.md5 s else SHA256.sha256 s))

/-- Python `str.strip(c)` for a one-character argument. -/
def pyStrip (c : Char) (s : List Char) : List Char :=
  ((s.dropWhile (· = c)).reverse.dropWhile (· = c)).reverse

/-- `index.Key.__init__` applied to two parts:
`"/".join(parts).strip("/")`. -/
def Key.join2 (a b : List Char) : List Char := pyStrip '/' (a ++ '/' :: b)

/-- `index.Key._path`: without a name, append the bare prefix segment;
with one, append `PREFIX_digest` where the digest is the name itself
when `name.isupper()` and every character is a hex digit, and
`_hash(name.upper().encode("utf-16-le"))` otherwise. -/
def Key.path (type_xp : Bool) (self_key : List Char) (pfx : List Char) :
    Option (List Char) → List Char
  | none => Key.join2 self_key pfx
  | some name =>
    let digest :=
      if pyIsUpper name ∧ name.all isHexDigit then name
      else Key.hashDigest type_xp (utf16le (pyUpper name))
    Key.join2 self_key (pfx ++ '_' :: digest)

/-- `index.Key.NS`. -/
def Key.NS (type_xp : Bool) (self_key : List Char) (name : Option (List Char)) :
    List Char :=
  Key.path type_xp self_key ['N', 'S'] name

/-- `index.Key.CD`. -/
def Key.CD (type_xp : Bool) (self_key : List Char) (name : Option (List Char)) :
    List Char :=
  Key.path type_xp self_key ['C', 'D'] name

/-- `index.Key.CI`. -/
def Key.CI (type_xp : Bool) (self_key : List Char) (name : Option (List Char)) :
    List Char :=
  Key.path type_xp self_key ['C', 'I'] name

/-- `index.Key.IL`. -/
def Key.IL (type_xp : Bool) (self_key : List Char) (name : Option (List Char)) :
    List Char :=
  Key.path type_xp self_key ['I', 'L'] name

/-- `index.Key.parts`: split the key on `"/"`, unpack each part on `"_"`
into `(prefix, digest)` (a part without exactly two fields raises
`ValueError` at the unpacking assignment), and collect the dict. -/
def Key.parts (key : List Char) : Except PyExc (List (List Char × List Char)) :=
  go (pySplit '/' key)
where
  go : List (List Char) → Except PyExc (List (List Char × List Char))
  | [] => .ok []
  | p :: rest =>
    match pySplit '_' p with
    | [a, b] => (go rest).map ((a, b) :: ·)
    | _ => .error (.valueError "unpacking")

/-- `key.parts()[prefix]`: dict lookup, the last assignment winning. -/
def Key.partsGet (key : List Char) (pfx : List Char) :
    Except PyExc (Option (List Char)) :=
  (Key.parts key).map (fun l => (l.reverse.find? (fun ab => ab.1 == pfx)).map (·.2))

/-! ## Theorems -/

/-- C7: for every property count `n`, the property-state table occupies
exactly `ceil(2*n/8)` bytes, and the two state bits of property index
`i < n` are taken from byte `i/4` shifted right by `2*(i%4)`: the
`0b10` bit gives is_inherited (class definition) / use_default_value
(instance), and the `0b01` bit equal to `0` gives has_default_value
(class definition) / is_initialized (instance). -/
theorem C7_property_state_bits (entries : List Nat) (n i : Nat)
    (hlen : entries.length = propertyStateLength n) (hi : i < n) :
    propertyStateLength n = (2 * n + 7) / 8 ∧
    propertyStatesGet entries n i =
      .ok (decide (0 < (entries.getD (i / 4) 0 >>> (2 * (i % 4))) &&& 0b10),
           decide ((entries.getD (i / 4) 0 >>> (2 * (i % 4))) &&& 0b01 = 0)) := by
  have hceil : propertyStateLength n = (2 * n + 7) / 8 := by
    simp only [propertyStateLength]
    omega
  refine ⟨hceil, ?_⟩
  have hidx : i / 4 < entries.length := by
    rw [hlen, hceil]; omega
  have hbyte : entries[i / 4]? = some (entries.getD (i / 4) 0) := by
    rw [List.getElem?_eq_getElem hidx, List.getD_eq_getElem _ _ hidx]
  have h32 : (3 : Nat) &&& 2 = 2 := by decide
  have h31 : (3 : Nat) &&& 1 = 1 := by decide
  simp only [propertyStatesGet, hbyte]
  rw [if_neg (by omega)]
  rw [Nat.and_assoc, Nat.and_assoc, h32, h31]

/-- Witness for C7 at `entries = [0b0110]`, `n = 2`, `i = 1`. -/
theorem C7_property_state_bits_witness :
    ([6] : List Nat).length = propertyStateLength 2 ∧
    (propertyStateLength 2 = (2 * 2 + 7) / 8 ∧
     propertyStatesGet [6] 2 1 =
       .ok (decide (0 < (([6] : List Nat).getD (1 / 4) 0 >>> (2 * (1 % 4))) &&& 0b10),
            decide ((([6] : List Nat).getD (1 / 4) 0 >>> (2 * (1 % 4))) &&& 0b01 = 0))) :=
  ⟨by decide, C7_property_state_bits [6] 2 1 (by decide) (by decide)⟩

/-- C10: for every non-array BOOLEAN value, `DataRegion.get_value`
returns True iff the raw 16-bit carrier equals `0xFFFF` — every other
raw value decodes to False, without an error — while the non-array
types outside STRING/REFERENCE/DATETIME, the eight integer types and
BOOLEAN (namely REAL32, REAL64, OBJECT и CHAR16) always raise
`ValueError("Unknown value type")`. -/
theorem C10_boolean_and_unknown_types (r : DataRegion) (v : Nat) (t : CIM_TYPES)
    (ht : t = .REAL32 ∨ t = .REAL64 ∨ t = .OBJECT ∨ t = .CHAR16) :
    (∃ b, r.get_value v ⟨.BOOLEAN, .NOT_ARRAY⟩ = .ok (.bool b) ∧ (b = true ↔ v = 0xFFFF)) ∧
    r.get_value v ⟨t, .NOT_ARRAY⟩ = .error (.valueError "Unknown value type") := by
  constructor
  · exact ⟨decide (v = 0xFFFF), rfl, by simp⟩
  · rcases ht with h | h | h | h <;> subst h <;> rfl

/-- Witness for C10 at `r = ⟨[]⟩`, `v = 7`, `t = REAL32`. -/
theorem C10_boolean_and_unknown_types_witness :
    (∃ b, (DataRegion.mk []).get_value 7 ⟨.BOOLEAN, .NOT_ARRAY⟩ = .ok (.bool b) ∧
          (b = true ↔ 7 = 0xFFFF)) ∧
    (DataRegion.mk []).get_value 7 ⟨.REAL32, .NOT_ARRAY⟩ =
      .error (.valueError "Unknown value type") :=
  C10_boolean_and_unknown_types ⟨[]⟩ 7 .REAL32 (Or.inl rfl)

/-- C4 (amended): `Key.reference` returns `None` on no match, the unique
match on exactly one, and raises the builtin `ValueError` (not
`InvalidDatabaseError`) on more than one. -/
theorem C4_reference_cases {α : Type} (refs : List α) :
    (refs = [] → Key.reference refs = .ok none) ∧
    (∀ x, refs = [x] → Key.reference refs = .ok (some x)) ∧
    (refs.length > 1 →
      Key.reference refs = .error (.valueError "Key returned more than one reference")) := by
  refine ⟨?_, ?_, ?_⟩
  · rintro rfl; rfl
  · rintro x rfl; rfl
  · intro hlen
    simp only [Key.reference]
    rw [if_pos ⟨by omega, hlen⟩]

/-- Witness for C4 at the three list shapes `[]`, `[7]`, `[7, 8]`. -/
theorem C4_reference_cases_witness :
    Key.reference ([] : List Nat) = .ok none ∧
    Key.reference [7] = .ok (some 7) ∧
    Key.reference [7, 8] = .error (.valueError "Key returned more than one reference") :=
  ⟨(C4_reference_cases ([] : List Nat)).1 rfl,
   (C4_reference_cases [7]).2.1 7 rfl,
   (C4_reference_cases [7, 8]).2.2 (by decide)⟩

/-- C4 counterexample: on a two-element match list the source raises
`ValueError`, not `InvalidDatabaseError` as the claim states. -/
theorem C4_reference_counterexample :
    ¬ ∃ msg, Key.reference [(1 : Nat), 2] = .error (.invalidDatabaseError msg) := by
  rintro ⟨msg, h⟩
  simp [Key.reference] at h

/-- C2 (amended): with `entries` of length `mapping_entry_count` (as the
cstruct layout guarantees), `Mapping.get_entry` returns the masked entry
for every in-range logical page number — including sentinel
`0x3FFFFFFF` entries, which it does not check — raises
`UnmappedPageError` exactly when the bounds pre-check passes but list
indexing fails (`logical_num = mapping_entry_count`), and raises the
builtin `IndexError` when `logical_num > mapping_entry_count`. -/
theorem C2_get_entry_cases (m : MappingRecord) (i : Nat)
    (hwf : m.entries.length = m.mapping_entry_count) :
    (i < m.mapping_entry_count →
      Mapping.get_entry m i = .ok (MappingEntry.ofRaw (m.entries.getD i (.xp 0)))) ∧
    (i = m.mapping_entry_count →
      Mapping.get_entry m i = .error (.unmappedPageError i)) ∧
    (i > m.mapping_entry_count →
      Mapping.get_entry m i = .error .indexError) := by
  refine ⟨?_, ?_, ?_⟩
  · intro hlt
    have hidx : i < m.entries.length := by omega
    have hbyte : m.entries[i]? = some (m.entries.getD i (.xp 0)) := by
      rw [List.getElem?_eq_getElem hidx, List.getD_eq_getElem _ _ hidx]
    simp only [Mapping.get_entry, hbyte]
    rw [if_neg (by omega)]
  · intro heq
    have hnone : m.entries[i]? = none := by
      rw [List.getElem?_eq_none_iff]; omega
    simp only [Mapping.get_entry, hnone]
    rw [if_neg (by omega)]
  · intro hgt
    simp only [Mapping.get_entry]
    rw [if_pos (by omega)]

/-- Witness for C2 at a two-entry mapping probed at 0, 2 and 3. -/
theorem C2_get_entry_cases_witness :
    Mapping.get_entry ⟨2, [.modern 5 0 0 0 0 0, .xp 6]⟩ 0 =
      .ok (MappingEntry.ofRaw (.modern 5 0 0 0 0 0)) ∧
    Mapping.get_entry ⟨2, [.modern 5 0 0 0 0 0, .xp 6]⟩ 2 =
      .error (.unmappedPageError 2) ∧
    Mapping.get_entry ⟨2, [.modern 5 0 0 0 0 0, .xp 6]⟩ 3 = .error .indexError :=
  ⟨(C2_get_entry_cases ⟨2, [.modern 5 0 0 0 0 0, .xp 6]⟩ 0 rfl).1 (by decide),
   (C2_get_entry_cases ⟨2, [.modern 5 0 0 0 0 0, .xp 6]⟩ 2 rfl).2.1 rfl,
   (C2_get_entry_cases ⟨2, [.modern 5 0 0 0 0 0, .xp 6]⟩ 3 rfl).2.2 (by decide)⟩

/-- C2 counterexample: a mapping whose only entry is the unmapped
sentinel `0x3FFFFFFF`.  The claim says `get_entry 0` raises
`UnmappedPageError`; the source returns the entry (whose `is_mapped` is
false), and an out-of-range page number raises `IndexError` rather than
`UnmappedPageError`. -/
theorem C2_get_entry_counterexample :
    Mapping.get_entry ⟨1, [.xp 0x3FFFFFFF]⟩ 0 =
      .ok ⟨UNMAPPED_PAGE_VALUE, none, none, none, none, none⟩ ∧
    (MappingEntry.mk UNMAPPED_PAGE_VALUE none none none none none).is_mapped = false ∧
    Mapping.get_entry ⟨1, [.xp 0x3FFFFFFF]⟩ 2 = .error .indexError := by
  decide

/-- C9: the `Namespace.namespaces` enumerator fails to deduplicate — its
membership test probes the `yielded` set with the namespace *name*
while `yielded.add(ns)` inserts the `Namespace` *object*, so the test
never fires and two `__namespace` instances with the same name are both
yielded.  (`Namespace.classes` and `Class.instances` add the same tag
they test, `dedupFirstOccurrence`, and do keep first occurrences
only.) -/
theorem C9_namespaces_duplicate :
    Namespace.namespaces_yield "root" ["a", "a"] = ["root\\a", "root\\a"] ∧
    dedupFirstOccurrence ["root\\a", "root\\a"] = ["root\\a"] := by
  constructor
  · rfl
  · rfl

/-! ### Splitting and decimal round-trip lemmas for C8 -/

theorem pySplit_no_sep (sep : Char) (xs : List Char) (h : sep ∉ xs) :
    pySplit sep xs = [xs] := by
  induction xs with
  | nil => rfl
  | cons c rest ih =>
    have hc : ¬ c = sep := by rintro rfl; exact h (List.mem_cons_self _ _)
    have hrest : sep ∉ rest := fun hm => h (List.mem_cons_of_mem _ hm)
    simp only [pySplit, if_neg hc, ih hrest]

theorem pySplit_append (sep : Char) (xs ys : List Char) (h : sep ∉ xs) :
    pySplit sep (xs ++ sep :: ys) = xs :: pySplit sep ys := by
  induction xs with
  | nil => simp [pySplit]
  | cons c rest ih =>
    have hc : ¬ c = sep := by rintro rfl; exact h (List.mem_cons_self _ _)
    have hrest : sep ∉ rest := fun hm => h (List.mem_cons_of_mem _ hm)
    simp only [List.cons_append, pySplit, if_neg hc, List.append_eq, ih hrest]

theorem charDigit_toNat (d : Nat) (hd : d < 10) :
    (Char.ofNat (48 + d)).toNat = 48 + d := by
  interval_cases d <;> decide

theorem pyStr_mem_digit (n : Nat) (c : Char) (hc : c ∈ pyStr n) :
    48 ≤ c.toNat ∧ c.toNat ≤ 57 := by
  by_cases hn : n = 0
  · subst hn
    simp [pyStr] at hc
    subst hc; decide
  · simp only [pyStr, if_neg hn, List.mem_map, List.mem_reverse] at hc
    obtain ⟨d, hd, rfl⟩ := hc
    have hlt : d < 10 := Nat.digits_lt_base (by norm_num) hd
    rw [charDigit_toNat d hlt]
    omega

theorem pyStr_ne_nil (n : Nat) : pyStr n ≠ [] := by
  by_cases hn : n = 0
  · subst hn; simp [pyStr]
  · simp only [pyStr, if_neg hn, ne_eq, List.map_eq_nil_iff, List.reverse_eq_nil_iff]
    exact Nat.digits_ne_nil_iff_ne_zero.mpr hn

theorem dot_not_mem_pyStr (n : Nat) : '.' ∉ pyStr n := by
  intro h
  have := pyStr_mem_digit n '.' h
  revert this; decide

theorem pyInt_pyStr (n : Nat) : pyInt (pyStr n) = .ok n := by
  have hall : (pyStr n).all (fun c => 48 ≤ c.toNat ∧ c.toNat ≤ 57) = true := by
    rw [List.all_eq_true]
    intro c hc
    simpa using pyStr_mem_digit n c hc
  simp only [pyInt]
  rw [if_pos ⟨pyStr_ne_nil n, hall⟩]
  by_cases hn : n = 0
  · subst hn; rfl
  · simp only [pyStr, if_neg hn]
    rw [List.foldl_map]
    have hfold :
        ∀ (L : List Nat), (∀ d ∈ L, d < 10) → ∀ acc : Nat,
          L.reverse.foldl
            (fun a d => 10 * a + ((Char.ofNat (48 + d)).toNat - 48)) acc =
          acc * 10 ^ L.length + Nat.ofDigits 10 L := by
      intro L
      induction L with
      | nil => intro _ acc; simp
      | cons d tl ih =>
        intro hmem acc
        have hd : d < 10 := hmem d (List.mem_cons_self _ _)
        have htl : ∀ x ∈ tl, x < 10 := fun x hx => hmem x (List.mem_cons_of_mem _ hx)
        simp only [List.reverse_cons, List.foldl_append, List.foldl_cons,
          List.foldl_nil, ih htl, Nat.ofDigits_cons, List.length_cons]
        rw [charDigit_toNat d hd]
        ring_nf
        omega
    have hdig : ∀ d ∈ Nat.digits 10 n, d < 10 :=
      fun d hd => Nat.digits_lt_base (by norm_num) hd
    rw [hfold (Nat.digits 10 n) hdig 0]
    simp [Nat.ofDigits_digits]

/-- C8: for every key whose final segment carries a data-reference tail
`.{data_page}.{data_id}.{data_length}` appended to a dot-free key body,
the accessors `data_page`, `data_id` and `data_length` re-extract
exactly the three integers that built the tail, and
`is_data_reference` holds iff the key string contains a `'.'`. -/
theorem C8_data_reference_roundtrip (base : List Char) (p i l : Nat)
    (hbase : '.' ∉ base) :
    Key.is_data_reference
      (base ++ '.' :: (pyStr p ++ '.' :: (pyStr i ++ '.' :: pyStr l))) = true ∧
    Key.data_page
      (base ++ '.' :: (pyStr p ++ '.' :: (pyStr i ++ '.' :: pyStr l))) = .ok p ∧
    Key.data_id
      (base ++ '.' :: (pyStr p ++ '.' :: (pyStr i ++ '.' :: pyStr l))) = .ok i ∧
    Key.data_length
      (base ++ '.' :: (pyStr p ++ '.' :: (pyStr i ++ '.' :: pyStr l))) = .ok l ∧
    (∀ k : List Char, Key.is_data_reference k = true ↔ '.' ∈ k) := by
  have hmemiff : ∀ k : List Char, Key.is_data_reference k = true ↔ '.' ∈ k := by
    intro k
    simp [Key.is_data_reference]
  have hmem : Key.is_data_reference
      (base ++ '.' :: (pyStr p ++ '.' :: (pyStr i ++ '.' :: pyStr l))) = true := by
    rw [hmemiff]
    simp
  have hsplit : pySplit '.'
      (base ++ '.' :: (pyStr p ++ '.' :: (pyStr i ++ '.' :: pyStr l))) =
      [base, pyStr p, pyStr i, pyStr l] := by
    rw [pySplit_append '.' base _ hbase,
        pySplit_append '.' (pyStr p) _ (dot_not_mem_pyStr p),
        pySplit_append '.' (pyStr i) _ (dot_not_mem_pyStr i),
        pySplit_no_sep '.' (pyStr l) (dot_not_mem_pyStr l)]
  have h1 : Key.data_part
      (base ++ '.' :: (pyStr p ++ '.' :: (pyStr i ++ '.' :: pyStr l))) 1 =
      .ok (pyStr p) := by
    simp [Key.data_part, hmem, hsplit]
  have h2 : Key.data_part
      (base ++ '.' :: (pyStr p ++ '.' :: (pyStr i ++ '.' :: pyStr l))) 2 =
      .ok (pyStr i) := by
    simp [Key.data_part, hmem, hsplit]
  have h3 : Key.data_part
      (base ++ '.' :: (pyStr p ++ '.' :: (pyStr i ++ '.' :: pyStr l))) 3 =
      .ok (pyStr l) := by
    simp [Key.data_part, hmem, hsplit]
  refine ⟨hmem, ?_, ?_, ?_, hmemiff⟩
  · simp only [Key.data_page, h1]
    exact pyInt_pyStr p
  · simp only [Key.data_id, h2]
    exact pyInt_pyStr i
  · simp only [Key.data_length, h3]
    exact pyInt_pyStr l

/-- Witness for C8 at `base = "IL_AB"`, `(p, i, l) = (2071, 3, 49827)`. -/
theorem C8_data_reference_roundtrip_witness :
    Key.is_data_reference
      (['I', 'L', '_', 'A', 'B'] ++ '.' ::
        (pyStr 2071 ++ '.' :: (pyStr 3 ++ '.' :: pyStr 49827))) = true ∧
    Key.data_page
      (['I', 'L', '_', 'A', 'B'] ++ '.' ::
        (pyStr 2071 ++ '.' :: (pyStr 3 ++ '.' :: pyStr 49827))) = .ok 2071 ∧
    Key.data_id
      (['I', 'L', '_', 'A', 'B'] ++ '.' ::
        (pyStr 2071 ++ '.' :: (pyStr 3 ++ '.' :: pyStr 49827))) = .ok 3 ∧
    Key.data_length
      (['I', 'L', '_', 'A', 'B'] ++ '.' ::
        (pyStr 2071 ++ '.' :: (pyStr 3 ++ '.' :: pyStr 49827))) = .ok 49827 ∧
    (∀ k : List Char, Key.is_data_reference k = true ↔ '.' ∈ k) :=
  C8_data_reference_roundtrip ['I', 'L', '_', 'A', 'B'] 2071 3 49827 (by decide)

/-! ### Derivation-walk lemmas for C3 -/

theorem default_value_walk_found (idx : Nat) (ty : CimType)
    (a : AncestorLayout) (post : List AncestorLayout) :
    ∀ pre : List AncestorLayout,
      (∀ x ∈ pre,
        propertyStatesGet x.state_entries x.num_properties idx = .ok (true, true)) →
      propertyStatesGet a.state_entries a.num_properties idx = .ok (false, true) →
      Property.default_value_walk idx ty (pre ++ a :: post) =
        (match a.default_values[idx]? with
         | none => .error .indexError
         | some v => a.property_data.get_value v ty) := by
  intro pre
  induction pre with
  | nil =>
    intro _ ha
    simp [Property.default_value_walk, ha]
  | cons p rest ih =>
    intro hpre ha
    have hp := hpre p (List.mem_cons_self _ _)
    have hrest : ∀ x ∈ rest,
        propertyStatesGet x.state_entries x.num_properties idx = .ok (true, true) :=
      fun x hx => hpre x (List.mem_cons_of_mem _ hx)
    simp only [List.cons_append, Property.default_value_walk, hp]
    simpa using ih hrest ha

theorem default_value_walk_exhausted (idx : Nat) (ty : CimType) :
    ∀ L : List AncestorLayout,
      (∀ x ∈ L,
        propertyStatesGet x.state_entries x.num_properties idx = .ok (true, true)) →
      Property.default_value_walk idx ty L =
        .error (.pyError "Unable to find ancestor class with default value") := by
  intro L
  induction L with
  | nil => intro _; rfl
  | cons p rest ih =>
    intro hall
    have hp := hall p (List.mem_cons_self _ _)
    simp only [Property.default_value_walk, hp]
    simpa using ih (fun x hx => hall x (List.mem_cons_of_mem _ hx))

/-- C3 (amended): for a property whose state on the class itself says
`has_default_value` and `is_inherited`, `Property.default_value` walks
the reversed derivation — the *leaf toward the root* — and returns the
value read от the **nearest** ancestor whose state has
`has_default_value` true and `is_inherited` false (every strictly
nearer class must itself carry `has_default_value`, else the walk
aborts); when no class of the derivation provides the default, the
operation fails with the fatal parse error `Error("Unable to find
ancestor class with default value")`. -/
theorem C3_default_value_nearest_ancestor :
    (∀ (derivation pre post : List AncestorLayout) (a : AncestorLayout)
       (idx : Nat) (ty : CimType),
      derivation.reverse = pre ++ a :: post →
      (∀ x ∈ pre,
        propertyStatesGet x.state_entries x.num_properties idx = .ok (true, true)) →
      propertyStatesGet a.state_entries a.num_properties idx = .ok (false, true) →
      Property.default_value derivation idx ty =
        (match a.default_values[idx]? with
         | none => .error .indexError
         | some v => a.property_data.get_value v ty)) ∧
    (∀ (derivation : List AncestorLayout) (idx : Nat) (ty : CimType),
      derivation ≠ [] →
      (∀ x ∈ derivation,
        propertyStatesGet x.state_entries x.num_properties idx = .ok (true, true)) →
      Property.default_value derivation idx ty =
        .error (.pyError "Unable to find ancestor class with default value")) := by
  constructor
  · intro derivation pre post a idx ty hsplit hpre ha
    have hlast : derivation.getLast? = (pre ++ a :: post).head? := by
      rw [← hsplit, List.head?_reverse]
    cases pre with
    | nil =>
      simp only [List.nil_append, List.head?_cons] at hlast
      simp only [Property.default_value, hlast, ha]
      norm_num
    | cons p rest =>
      have hp := hpre p (List.mem_cons_self _ _)
      simp only [List.cons_append, List.head?_cons] at hlast
      simp only [Property.default_value, hlast, hp]
      rw [hsplit]
      simpa using default_value_walk_found idx ty a post (p :: rest) hpre ha
  · intro derivation idx ty hne hall
    have hlast : derivation.getLast? = some (derivation.getLast hne) :=
      List.getLast?_eq_getLast derivation hne
    have hcl := hall _ (List.getLast_mem hne)
    simp only [Property.default_value, hlast, hcl]
    have hrev : ∀ x ∈ derivation.reverse,
        propertyStatesGet x.state_entries x.num_properties idx = .ok (true, true) :=
      fun x hx => hall x (List.mem_reverse.mp hx)
    simpa using default_value_walk_exhausted idx ty derivation.reverse hrev

/-- Root ancestor of the C3 counterexample: own default value 10. -/
def cexA : AncestorLayout := ⟨1, [0], [10], ⟨[]⟩⟩

/-- Middle ancestor of the C3 counterexample: own default value 20. -/
def cexB : AncestorLayout := ⟨1, [0], [20], ⟨[]⟩⟩

/-- Leaf class of the C3 counterexample: inherited default. -/
def cexC : AncestorLayout := ⟨1, [2], [0], ⟨[]⟩⟩

/-- C3 counterexample: in the derivation root `cexA` → `cexB` → leaf
`cexC`, both `cexA` and `cexB` carry a non-inherited default.  Walking
from the root toward the leaf and picking the first such ancestor, as
the claim states, yields `cexA`'s value 10; the source walks the
reversed derivation and returns the nearest ancestor's value 20 — the
two are different, so the claimed direction and its claimed equivalence
with "nearest ancestor" are wrong. -/
theorem C3_default_value_counterexample :
    Property.default_value [cexA, cexB, cexC] 0 ⟨.UINT32, .NOT_ARRAY⟩ =
      .ok (.int 20) ∧
    specRootToLeafDefault 0 ⟨.UINT32, .NOT_ARRAY⟩ [cexA, cexB, cexC] =
      .ok (.int 10) ∧
    PyVal.int 20 ≠ PyVal.int 10 := by decide

/-- Witness for C3 on the same derivation, with `pre = [cexC]`,
`a = cexB`, `post = [cexA]`. -/
theorem C3_default_value_nearest_ancestor_witness :
    ([cexA, cexB, cexC].reverse = [cexC] ++ cexB :: [cexA]) ∧
    Property.default_value [cexA, cexB, cexC] 0 ⟨.UINT32, .NOT_ARRAY⟩ =
      (match cexB.default_values[0]? with
       | none => .error .indexError
       | some v => cexB.property_data.get_value v ⟨.UINT32, .NOT_ARRAY⟩) :=
  ⟨by decide,
   C3_default_value_nearest_ancestor.1 [cexA, cexB, cexC] [cexC] [cexA] cexB 0
     ⟨.UINT32, .NOT_ARRAY⟩ (by decide) (by decide) (by decide)⟩

/-! ### Loop-length lemma for C1 -/

theorem Objects.getLoop_length (s : ObjStore) (data_len : Nat) :
    ∀ (fuel cur_page cur_len : Nat) (acc out : List Nat),
      acc.length = cur_len →
      Objects.getLoop s data_len cur_page cur_len acc fuel = .ok out →
      out.length = max data_len cur_len := by
  intro fuel
  induction fuel with
  | zero =>
    intro cur_page cur_len acc out hacc h
    by_cases hlt : cur_len < data_len
    · simp [Objects.getLoop, hlt] at h
    · simp only [Objects.getLoop, if_neg hlt] at h
      cases h
      omega
  | succ fuel ih =>
    intro cur_page cur_len acc out hacc h
    by_cases hlt : cur_len < data_len
    · simp only [Objects.getLoop, if_pos hlt] at h
      cases hl : s.logical_page cur_page with
      | error e => rw [hl] at h; cases h
      | ok next_buf =>
        rw [hl] at h
        dsimp only at h
        by_cases hover : cur_len + next_buf.length > data_len
        · rw [if_pos hover] at h
          have hlen : (acc ++ next_buf.take (data_len - cur_len)).length =
              cur_len + (data_len - cur_len) := by
            simp [hacc]
            omega
          have := ih (cur_page + 1) (cur_len + (data_len - cur_len))
            (acc ++ next_buf.take (data_len - cur_len)) out hlen h
          omega
        · rw [if_neg hover] at h
          have := ih (cur_page + 1) (cur_len + next_buf.length)
            (acc ++ next_buf) out (by simp [hacc]) h
          omega
    · simp only [Objects.getLoop, if_neg hlt] at h
      cases h
      omega

/-- C1 (amended): `Objects.get` fails fast when the matching TOC entry
has `entry.size < data_length`; when the slice the TOC-bearing page
yields is no longer than `data_length`, the returned stream is extended
with successor logical pages (the last one truncated) to exactly
`data_length` bytes; but when the slice is *longer* than `data_length`
(possible since `entry.size` may exceed `data_length`), the slice is
returned unchanged — in general the result length is
`max data_length slice.length`, not always `data_length`. -/
theorem C1_object_reassembly :
    (∀ (s : ObjStore) (p i l fuel : Nat) (pageb : List Nat)
       (toc : List TocEntry) (slice out : List Nat),
      s.logical_page p = .ok pageb →
      tocParse pageb = .ok toc →
      DataPage.data pageb toc i l = .ok slice →
      Objects.get s p i l fuel = .ok out →
      out.length = max l slice.length) ∧
    (∀ (pb : List Nat) (pre post : List TocEntry) (e : TocEntry) (i l : Nat),
      (∀ x ∈ pre, x.record_id ≠ i) → e.record_id = i → e.size < l →
      DataPage.data pb (pre ++ e :: post) i l =
        .error (.pyError "Entry size is smaller than target size")) := by
  constructor
  · intro s p i l fuel pageb toc slice out hpage htoc hslice hget
    simp only [Objects.get, hpage, htoc, hslice] at hget
    by_cases heq : slice.length = l
    · rw [if_pos heq] at hget
      cases hget
      omega
    · rw [if_neg heq] at hget
      exact Objects.getLoop_length s l fuel (p + 1) slice.length slice out rfl hget
  · intro pb pre post e i l hpre he hsize
    induction pre with
    | nil =>
      simp only [List.nil_append, DataPage.data]
      rw [if_pos he, if_pos hsize]
    | cons x rest ih =>
      have hx : ¬ x.record_id = i := hpre x (List.mem_cons_self _ _)
      simp only [List.cons_append, DataPage.data]
      rw [if_neg hx]
      exact ih (fun y hy => hpre y (List.mem_cons_of_mem _ hy))

/-- The single data page of the C1 concrete store: a TOC with one entry
`{record_id = 1, offset = 32, size = 40}`, the all-zero terminator, and
two heap bytes. -/
def cexPage : List Nat :=
  [1, 0, 0, 0, 32, 0, 0, 0, 40, 0, 0, 0, 0, 0, 0, 0] ++
    List.replicate 16 0 ++ [170, 187]

/-- The C1 concrete store: both logical pages resolve to physical page
0, i.e. to `cexPage`. -/
def cexStore : ObjStore := ⟨cexPage, ⟨2, [.xp 0, .xp 0]⟩⟩

/-- C1 counterexample: for the data reference
`(data_page, data_id, data_length) = (0, 1, 1)` the TOC slice has 2
bytes (`entry.size = 40 ≥ 1` passes the fail-fast check, the page
holds 2 heap bytes), and `Objects.get` returns those 2 bytes unchanged —
a stream whose length is not `data_length = 1`. -/
theorem C1_object_reassembly_counterexample :
    Objects.get cexStore 0 1 1 5 = .ok [170, 187] ∧
    ([170, 187] : List Nat).length ≠ 1 := by decide

/-- Witness for C1 at the same store with `data_length = 20`: the
2-byte slice is extended from the successor logical page and truncated
to exactly `max 20 2 = 20` bytes. -/
theorem C1_object_reassembly_witness :
    Objects.get cexStore 0 1 20 5 =
      .ok [170, 187, 1, 0, 0, 0, 32, 0, 0, 0, 40, 0, 0, 0, 0, 0, 0, 0, 0, 0] ∧
    ([170, 187, 1, 0, 0, 0, 32, 0, 0, 0, 40, 0, 0, 0, 0, 0, 0, 0, 0, 0] :
      List Nat).length = max 20 ([170, 187] : List Nat).length :=
  ⟨by decide,
   C1_object_reassembly.1 cexStore 0 1 20 5 cexPage
     [⟨1, 32, 40, 0⟩] [170, 187]
     [170, 187, 1, 0, 0, 0, 32, 0, 0, 0, 40, 0, 0, 0, 0, 0, 0, 0, 0, 0]
     (by decide) (by decide) (by decide) (by decide)⟩

/-! ### Digest-alphabet and strip/join lemmas for C5 -/

theorem hexChar_class (n : Nat) (h : n < 16) :
    (48 ≤ (hexChar n).toNat ∧ (hexChar n).toNat ≤ 57) ∨
    (97 ≤ (hexChar n).toNat ∧ (hexChar n).toNat ≤ 102) := by
  interval_cases n <;> decide

theorem sha256_mem_lt (msg : List Nat) (b : Nat)
    (hb : b ∈ SHA256.sha256 msg) : b < 256 := by
  simp only [SHA256.sha256, List.mem_flatten, List.mem_map] at hb
  obtain ⟨l, ⟨w, _, rfl⟩, hbl⟩ := hb
  simp only [SHA256.be, List.mem_map] at hbl
  obtain ⟨i, _, rfl⟩ := hbl
  exact Nat.mod_lt _ (by norm_num)

theorem md5_mem_lt (msg : List Nat) (b : Nat)
    (hb : b ∈ MD5.md5 msg) : b < 256 := by
  simp only [MD5.md5, List.mem_flatten, List.mem_map] at hb
  obtain ⟨l, ⟨w, _, rfl⟩, hbl⟩ := hb
  simp only [MD5.le, List.mem_map] at hbl
  obtain ⟨i, _, rfl⟩ := hbl
  exact Nat.mod_lt _ (by norm_num)

theorem hexEncode_class (c : Char) :
    ∀ bs : List Nat, (∀ b ∈ bs, b < 256) → c ∈ hexEncode bs →
      (48 ≤ c.toNat ∧ c.toNat ≤ 57) ∨ (97 ≤ c.toNat ∧ c.toNat ≤ 102) := by
  intro bs
  induction bs with
  | nil =>
    intro _ hc
    simp [hexEncode] at hc
  | cons b rest ih =>
    intro hbs hc
    have hb := hbs b (List.mem_cons_self _ _)
    simp only [hexEncode, List.foldr_cons, List.mem_cons] at hc
    rcases hc with h | h | h
    · rw [h]; exact hexChar_class _ (by omega)
    · rw [h]; exact hexChar_class _ (by omega)
    · exact ih (fun x hx => hbs x (List.mem_cons_of_mem _ hx)) h

theorem upperLower_toNat (n : Nat) (h1 : 97 ≤ n) (h2 : n ≤ 102) :
    (Char.ofNat (n - 32)).toNat = n - 32 := by
  interval_cases n <;> decide

theorem hashDigest_mem (type_xp : Bool) (s : List Nat) (c : Char)
    (hc : c ∈ Key.hashDigest type_xp s) :
    (48 ≤ c.toNat ∧ c.toNat ≤ 57) ∨ (65 ≤ c.toNat ∧ c.toNat ≤ 70) := by
  simp only [Key.hashDigest, pyUpper, List.mem_map] at hc
  obtain ⟨c', hc', rfl⟩ := hc
  have hbytes : ∀ b ∈ (if type_xp then MD5.md5 s else SHA256.sha256 s), b < 256 := by
    cases type_xp
    · simpa using fun b hb => sha256_mem_lt s b hb
    · simpa using fun b hb => md5_mem_lt s b hb
  rcases hexEncode_class c' _ hbytes hc' with ⟨h1, h2⟩ | ⟨h1, h2⟩
  · rw [pyUpperChar, if_neg (by omega)]
    exact Or.inl ⟨h1, h2⟩
  · rw [pyUpperChar, if_pos ⟨h1, by omega⟩]
    rw [upperLower_toNat c'.toNat h1 h2]
    omega

theorem dropWhile_eq_not_mem (c : Char) (xs : List Char) (h : c ∉ xs) :
    xs.dropWhile (· = c) = xs := by
  cases xs with
  | nil => rfl
  | cons a t =>
    have ha : ¬ (a = c) := fun hh => h (hh ▸ List.mem_cons_self _ _)
    simp [List.dropWhile_cons, ha]

theorem pyStrip_cons_not_mem (c : Char) (xs : List Char) (h : c ∉ xs) :
    pyStrip c (c :: xs) = xs := by
  unfold pyStrip
  rw [List.dropWhile_cons]
  simp only [decide_eq_true_eq, eq_self_iff_true, if_true]
  rw [dropWhile_eq_not_mem c xs h,
      dropWhile_eq_not_mem c xs.reverse (by simpa using h),
      List.reverse_reverse]

/-- The verbatim condition of `Key._path`
(`name.isupper() and all(c in string.hexdigits for c in name)`)
characterized: every character is a decimal digit or an uppercase hex
letter, and at least one uppercase hex letter occurs. -/
theorem hexVerbatimCond_iff (name : List Char) :
    ((pyIsUpper name = true) ∧ (name.all isHexDigit = true)) ↔
    ((name.all (fun c => decide ((48 ≤ c.toNat ∧ c.toNat ≤ 57) ∨
        (65 ≤ c.toNat ∧ c.toNat ≤ 70))) = true) ∧
     (name.any (fun c => decide (65 ≤ c.toNat ∧ c.toNat ≤ 70)) = true)) := by
  simp only [pyIsUpper, Bool.and_eq_true, List.any_eq_true, List.all_eq_true,
    decide_eq_true_eq, isHexDigit, pyIsCased]
  constructor
  · rintro ⟨⟨⟨c0, hc0, hcased⟩, hnolow⟩, hhex⟩
    refine ⟨fun c hc => ?_, ⟨c0, hc0, ?_⟩⟩
    · have h1 := hhex c hc
      have h2 := hnolow c hc
      omega
    · have h1 := hhex c0 hc0
      have h2 := hnolow c0 hc0
      omega
  · rintro ⟨hall, ⟨c0, hc0, hAF⟩⟩
    refine ⟨⟨⟨c0, hc0, by omega⟩, fun c hc => ?_⟩, fun c hc => ?_⟩
    · have := hall c hc
      omega
    · have := hall c hc
      omega

theorem partsGet_join2 (pfx D : List Char) (h_us : '_' ∉ pfx) (h_sl : '/' ∉ pfx)
    (hD_us : '_' ∉ D) (hD_sl : '/' ∉ D) :
    Key.partsGet (Key.join2 [] (pfx ++ '_' :: D)) pfx = .ok (some D) := by
  have hnosl : '/' ∉ pfx ++ '_' :: D := by
    intro hmem
    rcases List.mem_append.mp hmem with h | h
    · exact h_sl h
    · rcases List.mem_cons.mp h with h | h
      · exact absurd h (by decide)
      · exact hD_sl h
  have hkey : Key.join2 [] (pfx ++ '_' :: D) = pfx ++ '_' :: D := by
    simp only [Key.join2, List.nil_append]
    exact pyStrip_cons_not_mem '/' _ hnosl
  rw [hkey]
  have hsplit1 : pySplit '/' (pfx ++ '_' :: D) = [pfx ++ '_' :: D] :=
    pySplit_no_sep '/' _ hnosl
  have hsplit2 : pySplit '_' (pfx ++ '_' :: D) = [pfx, D] := by
    rw [pySplit_append '_' pfx D h_us, pySplit_no_sep '_' D hD_us]
  simp [Key.partsGet, Key.parts, hsplit1, Key.parts.go, hsplit2,
    Except.map, List.find?]

/-- C5 (amended): the key builders append `PREFIX_digest` where the
digest is the uppercase hex of SHA-256 (modern) or MD5 (XP session) of
the UTF-16-LE encoding of `name.upper()`; the verbatim branch fires not
for every all-uppercase-hex name but exactly when every character is a
decimal digit or an uppercase hex letter **and at least one uppercase
hex letter occurs** (Python's `str.isupper` demands a cased character,
so digit-only names are hashed). -/
theorem C5_key_digest (type_xp : Bool) (pfx name : List Char)
    (hpfx_us : '_' ∉ pfx) (hpfx_sl : '/' ∉ pfx) :
    ((pyIsUpper name = true) ∧ (name.all isHexDigit = true) ↔
      (name.all (fun c => decide ((48 ≤ c.toNat ∧ c.toNat ≤ 57) ∨
         (65 ≤ c.toNat ∧ c.toNat ≤ 70))) = true) ∧
      (name.any (fun c => decide (65 ≤ c.toNat ∧ c.toNat ≤ 70)) = true)) ∧
    Key.partsGet (Key.path type_xp [] pfx (some name)) pfx =
      .ok (some (if pyIsUpper name ∧ name.all isHexDigit then name
                 else Key.hashDigest type_xp (utf16le (pyUpper name)))) := by
  refine ⟨hexVerbatimCond_iff name, ?_⟩
  by_cases hcond : pyIsUpper name ∧ name.all isHexDigit
  · have hall := ((hexVerbatimCond_iff name).mp hcond).1
    rw [List.all_eq_true] at hall
    have hn_us : '_' ∉ name := by
      intro hmem
      have := hall _ hmem
      revert this; decide
    have hn_sl : '/' ∉ name := by
      intro hmem
      have := hall _ hmem
      revert this; decide
    have hpath : Key.path type_xp [] pfx (some name) =
        Key.join2 [] (pfx ++ '_' :: name) := by
      simp only [Key.path, if_pos hcond]
    rw [hpath, if_pos hcond]
    exact partsGet_join2 pfx name hpfx_us hpfx_sl hn_us hn_sl
  · have hd_us : '_' ∉ Key.hashDigest type_xp (utf16le (pyUpper name)) := by
      intro hmem
      have := hashDigest_mem _ _ _ hmem
      revert this; decide
    have hd_sl : '/' ∉ Key.hashDigest type_xp (utf16le (pyUpper name)) := by
      intro hmem
      have := hashDigest_mem _ _ _ hmem
      revert this; decide
    have hpath : Key.path type_xp [] pfx (some name) =
        Key.join2 [] (pfx ++ '_' ::
          Key.hashDigest type_xp (utf16le (pyUpper name))) := by
      simp only [Key.path, if_neg hcond]
    rw [hpath, if_neg hcond]
    exact partsGet_join2 pfx _ hpfx_us hpfx_sl hd_us hd_sl

/-- Witness for C5 at `pfx = "CD"`, `name = "A"` (modern session). -/
theorem C5_key_digest_witness :
    ((pyIsUpper ['A'] = true) ∧ (['A'].all isHexDigit = true) ↔
      (['A'].all (fun c => decide ((48 ≤ c.toNat ∧ c.toNat ≤ 57) ∨
         (65 ≤ c.toNat ∧ c.toNat ≤ 70))) = true) ∧
      (['A'].any (fun c => decide (65 ≤ c.toNat ∧ c.toNat ≤ 70)) = true)) ∧
    Key.partsGet (Key.path false [] ['C', 'D'] (some ['A'])) ['C', 'D'] =
      .ok (some (if pyIsUpper ['A'] ∧ ['A'].all isHexDigit then ['A']
                 else Key.hashDigest false (utf16le (pyUpper ['A'])))) :=
  C5_key_digest false ['C', 'D'] ['A'] (by decide) (by decide)

/-- C5 counterexample: the name `"123"` is made of uppercase hex digits
only, so the claim says `key.CD("123")` carries the digest `123`
verbatim; but `"123".isupper()` is False in Python (no cased
character), so the source hashes it — the extracted `CD` digest is the
64-character SHA-256 hex digest, not `123`. -/
theorem C5_key_digest_counterexample :
    Key.partsGet (Key.CD false [] (some ['1', '2', '3'])) ['C', 'D'] ≠
      .ok (some ['1', '2', '3']) := by decide

/-! ### Scan refinement lemma for C6 -/

theorem scan_spec (s : IndexStoreM) (key : String) (fuel : Nat) (page : IndexPageM)
    (chl : Nat → Option (List String))
    (hchl : ∀ j, chl j = Index.specChild s key fuel page j) :
    ∀ (rest : List String) (i : Nat), rest = page.keys.drop i →
      Index.scanKeys chl key page.keys.length i rest =
        Index.specScan s key fuel page i := by
  intro rest
  induction rest with
  | nil =>
    intro i hrest
    have hle : page.keys.length ≤ i := by
      have := congrArg List.length hrest
      simp [List.length_drop] at this
      omega
    rw [Index.specScan, dif_pos hle]
    rfl
  | cons k rest' ih =>
    intro i hrest
    have hi : i < page.keys.length := by
      by_contra hge
      rw [List.drop_eq_nil_of_le (by omega)] at hrest
      cases hrest
    rw [List.drop_eq_getElem_cons hi] at hrest
    injection hrest with hk hrest'
    subst hk
    rw [Index.specScan, dif_neg (by omega)]
    simp only [List.get_eq_getElem]
    simp only [Index.scanKeys]
    by_cases hsub : key.toList <:+: (page.keys[i]).toList
    · rw [if_pos hsub, if_pos hsub, hchl i, hchl (i + 1)]
      cases hL : Index.specChild s key fuel page i with
      | none =>
        cases hR : Index.specChild s key fuel page (i + 1) <;> rfl
      | some left =>
        cases hR : Index.specChild s key fuel page (i + 1) with
        | none => rfl
        | some right =>
          dsimp only
          by_cases hlast : i = page.keys.length - 1
          · rw [if_pos hlast, if_pos hlast]
            simp
          · rw [if_neg hlast, if_neg hlast, ih (i + 1) hrest']
            cases Index.specScan s key fuel page (i + 1) with
            | none => rfl
            | some ms => simp
    · rw [if_neg hsub, if_neg hsub]
      by_cases hlt : key < page.keys[i]
      · rw [if_pos hlt, if_pos hlt, hchl i]
      · rw [if_neg hlt, if_neg hlt]
        by_cases hlast : i = page.keys.length - 1
        · rw [if_pos hlast, if_pos hlast, hchl (i + 1)]
        · rw [if_neg hlast, if_neg hlast]
          exact ih (i + 1) hrest'

/-- C6: for every store, target, recursion budget and start page, the
source traversal `Index._lookup` (`Index.lookupAux`, embedded from the
code) coincides with `Index.specLookup`, the independently structured
transcription of the spec's algorithm: scan keys left to right; on a
substring match recurse into child `i`, emit the key, recurse into
child `i + 1`, and continue unless `i` is the last key; on
`target < key` recurse into child `i` and stop; past the last key
recurse into the rightmost child; never recurse into children equal to
`0xFFFFFFFF` or `0x00000000`.  Both sides are functions of their
arguments, so the lookup is in particular deterministic, and matches
are collected in this traversal order. -/
theorem C6_lookup_matches_spec :
    ∀ (fuel : Nat) (s : IndexStoreM) (key : String) (page : IndexPageM),
      Index.lookupAux s key fuel page = Index.specLookup s key fuel page := by
  intro fuel
  induction fuel with
  | zero =>
    intro s key page
    rw [Index.specLookup]
    rfl
  | succ fuel ih =>
    intro s key page
    rw [Index.specLookup]
    have hchl : ∀ j,
        (fun j : Nat =>
          let child_idx := page.children.getD j 0
          if child_idx = INDEX_PAGE_INVALID ∨ child_idx = INDEX_PAGE_INVALID2 then
            some []
          else Index.lookupAux s key fuel (s.pages child_idx)) j =
        Index.specChild s key fuel page j := by
      intro j
      rw [Index.specChild]
      simp only [INDEX_PAGE_INVALID, INDEX_PAGE_INVALID2]
      by_cases hc : page.children.getD j 0 = 0xFFFFFFFF ∨ page.children.getD j 0 = 0
      · rw [if_pos hc, if_pos hc]
      · rw [if_neg hc, if_neg hc, ih]
    simp only [Index.lookupAux]
    exact scan_spec s key fuel page _ hchl page.keys 0 rfl
